import Mathlib

/-!
Verification of the segment-processing and export logic of the
audio/video transcription repository (dashboard `transcription_dashboard.py`
and uploader `upload_av_files.py`), shallowly embedded in Lean.

Times are modelled as exact rationals; Python strings as Lean `String`
(operating on the underlying `List Char`); Python dictionaries with
defaulted keys as structures with default fields; Python `None` returns as
`Option`.  All definitions are executable.
-/

/-! ## String helpers (Python `str.lower`, `str.strip`, substring `in`) -/

/-- Whitespace test used by `str.strip`. -/
def isWS (c : Char) : Bool := c.isWhitespace

/-- Python `str.lower` (character-wise lowering). -/
def lowerStr (s : String) : String := String.mk (s.data.map Char.toLower)

/-- Python `str.strip` on the character list: drop whitespace at both ends. -/
def stripL (l : List Char) : List Char :=
  ((l.dropWhile isWS).reverse.dropWhile isWS).reverse

/-- Python `str.strip`. -/
def stripStr (s : String) : String := String.mk (stripL s.data)

/-- Does `s` start with `p`? -/
def hasLead : List Char → List Char → Bool
  | [], _ => true
  | _ :: _, [] => false
  | c :: cs, d :: ds => c == d && hasLead cs ds

/-- Does `s` contain `p` as a contiguous substring (Python `p in s`)? -/
def hasSub (p : List Char) : List Char → Bool
  | [] => hasLead p []
  | d :: ds => hasLead p (d :: ds) || hasSub p ds

/-- Python `pat in hay` on strings. -/
def containsStr (hay pat : String) : Bool := hasSub pat.data hay.data

/-! ## Number formatting (Python `int()`, `divmod`, f-string `:02d`) -/

/-- Python `int()` on a rational: truncation toward zero
(`Int.tdiv` is division rounding toward zero). -/
def truncQ (q : ℚ) : ℤ := q.num.tdiv (q.den : ℤ)

/-- Subtraction on ℚ in a kernel-reducible form (proved equal to `a - b`
in `qsub_eq_sub`). -/
def qsub (a b : ℚ) : ℚ :=
  mkRat (a.num * (b.den : ℤ) - b.num * (a.den : ℤ)) (a.den * b.den)

/-- Multiplication by 1000 on ℚ in a kernel-reducible form (proved equal to
`a * 1000` in `qmul1000_eq`). -/
def qmul1000 (a : ℚ) : ℚ := mkRat (a.num * 1000) a.den

/-- Decimal digits of a natural number, as a string. -/
def natStr (n : ℕ) : String := String.mk (Nat.toDigits 10 n)

/-- Left-pad a string with zeros to width `w`. -/
def padZ (w : ℕ) (s : String) : String :=
  String.mk (List.replicate (w - s.length) (Char.ofNat 48)) ++ s

/-- Python `f"{n:0wd}"`: sign, then digits zero-padded to total width `w`. -/
def fmtWidth (w : ℕ) (n : ℤ) : String :=
  if n < 0 then "-" ++ padZ (w - 1) (natStr n.natAbs) else padZ w (natStr n.toNat)

/-- Python `round` to integer: round half to even. -/
def halfEven (x : ℚ) : ℤ :=
  let f : ℤ := ⌊x⌋
  let d : ℚ := x - (f : ℚ)
  if d < 1/2 then f
  else if 1/2 < d then f + 1
  else if f % 2 = 0 then f else f + 1

/-- Python `round(x, 2)` on exact rationals. -/
def pyRound2 (x : ℚ) : ℚ := (halfEven (x * 100) : ℚ) / 100

/-- Python `f"{q:.1f}"` on exact rationals. -/
def fmtOneDec (q : ℚ) : String :=
  let r := halfEven (q * 10)
  if r < 0 then "-" ++ natStr (r.natAbs / 10) ++ "." ++ natStr (r.natAbs % 10)
  else natStr (r.toNat / 10) ++ "." ++ natStr (r.toNat % 10)

/-! ## Data model -/

/-- A speaker segment as used by the dashboard: a Python dict whose keys are
read with `.get` defaults `speaker='Unknown'`, `text=''`,
`start_time=0`, `end_time=0`; `duration` is an optional key defaulting to
`end_time - start_time` at use sites. -/
structure Seg where
  speaker : String := "Unknown"
  text : String := ""
  start_time : ℚ := 0
  end_time : ℚ := 0
  durationOpt : Option ℚ := none
deriving DecidableEq, Inhabited

/-- A segment tagged by the context extractor with `is_match` and
`context_group` keys (`context_group` is absent, i.e. `none`, on raw
segments). -/
structure TSeg extends Seg where
  is_match : Bool := false
  context_group : Option ℕ := none
deriving DecidableEq, Inhabited

/-! ## Stable sort by a rational key (Python `sorted(-, key=...)`) -/

/-- Insert `x` after all elements whose key is `≤ key x` (stability). -/
def insQ (key : α → ℚ) (x : α) : List α → List α
  | [] => [x]
  | y :: ys => if key y ≤ key x then y :: insQ key x ys else x :: y :: ys

/-- Stable sort by key, extensionally equal to Python `sorted` with a key. -/
def sortQ (key : α → ℚ) (l : List α) : List α :=
  l.foldl (fun acc x => insQ key x acc) []

/-! ## Match locator and context window extractor
(`find_matching_segments_with_context`) -/

/-- Indices `i` of the (sorted) segment list whose lower-cased text contains
the lower-cased search term: the `matching_indices` loop. -/
def matchingIdx (l : List Seg) (t : String) : List ℕ :=
  (List.range l.length).filter
    (fun i => containsStr (lowerStr ((l.getD i default).text)) (lowerStr t))

/-- The tagged copy made for index `i` first covered while processing match
`m`: `is_match = (i == match_idx)`, `context_group = match_idx`. -/
def tagSeg (s : Seg) (m : Bool) (g : ℕ) : TSeg :=
  { toSeg := s, is_match := m, context_group := some g }

/-- The context-extraction loop over `matching_indices`, recording for each
newly added index `i` the pair `(i, match_idx)` (source index and the match
whose window first covered it), threading the `added_indices` set. -/
def ctxLoop (len c : ℕ) : List ℕ → List ℕ → List (ℕ × ℕ)
  | [], _ => []
  | m :: ms, added =>
    let ws := m - c
    let we := min len (m + c + 1)
    let news := (List.range' ws (we - ws)).filter (fun i => decide (i ∉ added))
    news.map (fun i => (i, m)) ++ ctxLoop len c ms (added ++ news)

/-- All `(index, first-covering match)` pairs, in addition order. -/
def ctxPairs (len c : ℕ) (ms : List ℕ) : List (ℕ × ℕ) := ctxLoop len c ms []

/-- `find_matching_segments_with_context(speaker_segments, search_term,
context_size)`: guard empty inputs, sort by start time, locate matches,
expand each match into its context window deduplicating already added
indices, tag the copies, and re-sort by start time. -/
def find_matching_segments_with_context (l : List Seg) (t : String) (c : ℕ) :
    List TSeg :=
  if l.isEmpty || t.isEmpty then [] else
    let ss := sortQ Seg.start_time l
    let ms := matchingIdx ss t
    if ms.isEmpty then [] else
      sortQ (fun x : TSeg => x.start_time)
        ((ctxPairs ss.length c ms).map
          (fun p => tagSeg (ss.getD p.1 default) (decide (p.1 = p.2)) p.2))

/-! ## Segment normalizer (grouping loop of `display_speaker_transcript`) -/

/-- Merge test of the grouping loop: `speaker == current_speaker and
current_end and abs(start_time - current_end) < 2` (note the truthiness
test on `current_end` and the absolute value). -/
def mergeCond (cur s : Seg) : Bool :=
  decide (s.speaker = cur.speaker) && decide (cur.end_time ≠ 0) &&
    decide (|qsub s.start_time cur.end_time| < 2)

/-- Start a fresh accumulator group from segment `s` (text stripped; the
group dict has no `duration` key). -/
def startGroup (s : Seg) : Seg :=
  { speaker := s.speaker, text := stripStr s.text,
    start_time := s.start_time, end_time := s.end_time, durationOpt := none }

/-- The grouping loop with accumulator `cur`: merge the next segment into
`cur` when `mergeCond` holds (append `" " + text.strip()`, extend
`end_time`), otherwise flush `cur` and restart; flush at end of input. -/
def groupLoop (cur : Seg) : List Seg → List Seg
  | [] => [cur]
  | s :: rest =>
    if mergeCond cur s then
      groupLoop { cur with text := cur.text ++ " " ++ stripStr s.text,
                           end_time := s.end_time } rest
    else cur :: groupLoop (startGroup s) rest

/-- Group a list of segments (empty input → empty output). -/
def groupSegs : List Seg → List Seg
  | [] => []
  | s :: rest => groupLoop (startGroup s) rest

/-- The normalizer of `display_speaker_transcript`: sort by `start_time`,
then run the grouping loop. -/
def normalizeSegs (l : List Seg) : List Seg := groupSegs (sortQ Seg.start_time l)

/-! ## Search-mode normalizer (grouping loop of
`display_search_result_with_speakers`; the input is used in given order) -/

/-- Search-mode merge test: additionally requires equal `is_match` and equal
`context_group`. -/
def mergeCondT (cur s : TSeg) : Bool :=
  decide (s.speaker = cur.speaker) && decide (cur.end_time ≠ 0) &&
    decide (|qsub s.start_time cur.end_time| < 2) &&
    decide (s.is_match = cur.is_match) &&
    decide (s.context_group = cur.context_group)

/-- Start a fresh search-mode group from `s`. -/
def startGroupT (s : TSeg) : TSeg :=
  { speaker := s.speaker, text := stripStr s.text,
    start_time := s.start_time, end_time := s.end_time, durationOpt := none,
    is_match := s.is_match, context_group := s.context_group }

/-- Search-mode grouping loop. -/
def groupLoopT (cur : TSeg) : List TSeg → List TSeg
  | [] => [cur]
  | s :: rest =>
    if mergeCondT cur s then
      groupLoopT { cur with text := cur.text ++ " " ++ stripStr s.text,
                            end_time := s.end_time } rest
    else cur :: groupLoopT (startGroupT s) rest

/-- Search-mode grouping (input not re-sorted by the source). -/
def groupTSegs : List TSeg → List TSeg
  | [] => []
  | s :: rest => groupLoopT (startGroupT s) rest

/-! ## SRT timestamp formatting -/

/-- The millisecond field: `int((t - int(t)) * 1000)` (truncation). -/
def msOf (t : ℚ) : ℤ := truncQ (qmul1000 (qsub t (truncQ t : ℚ)))

/-- `HH:MM:SS,mmm` as produced by the SRT exporters:
`divmod(int(t), 3600)`, `divmod(rem, 60)`, millisecond truncation. -/
def srtTimestamp (t : ℚ) : String :=
  let s := truncQ t
  let h := Int.fdiv s 3600
  let rem := Int.fmod s 3600
  let m := Int.fdiv rem 60
  let sec := Int.fmod rem 60
  fmtWidth 2 h ++ ":" ++ fmtWidth 2 m ++ ":" ++ fmtWidth 2 sec ++ "," ++
    fmtWidth 3 (msOf t)

/-- `MM:SS` as produced by the CSV exporters: `divmod(int(t), 60)`. -/
def fmtMS (t : ℚ) : String :=
  let s := truncQ t
  fmtWidth 2 (Int.fdiv s 60) ++ ":" ++ fmtWidth 2 (Int.fmod s 60)

/-! ## Subtitle exporters -/

/-- One SRT entry of `convert_speaker_segments_to_srt` (`txt` is the
stripped text; speaker prefix only when enabled and not `Unknown`). -/
def srtEntryPlain (n : ℕ) (s : Seg) (txt : String) (inc : Bool) : String :=
  let sub := if inc && decide (s.speaker ≠ "Unknown")
             then s.speaker ++ ": " ++ txt else txt
  natStr n ++ "\n" ++ srtTimestamp s.start_time ++ " --> " ++
    srtTimestamp s.end_time ++ "\n" ++ sub ++ "\n"

/-- `convert_speaker_segments_to_srt(speaker_segments, file_info,
include_speakers)`: `None` on empty input; sort; skip empty stripped text
but number entries by `enumerate(sorted_segments, 1)`; join with blank
lines.  (`file_info` is unused by the source body.) -/
def convert_speaker_segments_to_srt (l : List Seg) (inc : Bool) : Option String :=
  if l.isEmpty then none else
    let sorted := sortQ Seg.start_time l
    some (String.intercalate "\n" (sorted.enum.filterMap (fun p =>
      let txt := stripStr p.2.text
      if txt = "" then none else some (srtEntryPlain (p.1 + 1) p.2 txt inc))))

/-- Subtitle text of the search-result SRT exporter: speaker prefix only
when enabled and speaker not `Unknown`; `[MATCH]` marks matched segments in
both branches. -/
def subtitleTextSearch (inc : Bool) (s : TSeg) (txt : String) : String :=
  if inc && decide (s.speaker ≠ "Unknown") then
    if s.is_match then s.speaker ++ " [MATCH]: " ++ txt
    else s.speaker ++ ": " ++ txt
  else
    if s.is_match then "[MATCH]: " ++ txt else txt

/-- `convert_search_results_to_srt(context_segments, file_info, search_term,
include_speakers)`: `None` on empty input; sort; skip empty stripped text;
a separate `subtitle_number` counter increments only on emitted entries.
(`file_info` and `search_term` are unused by the source body.) -/
def convert_search_results_to_srt (l : List TSeg) (inc : Bool) : Option String :=
  if l.isEmpty then none else
    let sorted := sortQ (fun x : TSeg => x.start_time) l
    let kept := sorted.filter (fun s => decide (stripStr s.text ≠ ""))
    some (String.intercalate "\n" (kept.enum.map (fun p =>
      natStr (p.1 + 1) ++ "\n" ++ srtTimestamp p.2.start_time ++ " --> " ++
        srtTimestamp p.2.end_time ++ "\n" ++
        subtitleTextSearch inc p.2 (stripStr p.2.text) ++ "\n")))

/-! ## Tabular (CSV) exporters -/

/-- A CSV cell: integer, string, or rational value. -/
inductive Cell where
  | i : ℤ → Cell
  | s : String → Cell
  | q : ℚ → Cell
deriving DecidableEq

/-- A row of `convert_speaker_segments_to_csv`. -/
structure CsvRow where
  segment : Cell
  speaker : Cell
  startT : Cell
  endT : Cell
  startSec : Cell
  endSec : Cell
  durationSec : Cell
  text : Cell
deriving DecidableEq

/-- A row of `convert_search_results_to_csv` (adds `Is_Match`,
`Match_Group`). -/
structure SCsvRow where
  segment : Cell
  speaker : Cell
  startT : Cell
  endT : Cell
  startSec : Cell
  endSec : Cell
  durationSec : Cell
  isMatchC : Cell
  matchGroup : Cell
  text : Cell
deriving DecidableEq

/-- Dashboard `file_info` dict fields used by the exporters. -/
structure FileInfo where
  filename : String := "Unknown"
  language : String := "Unknown"
  duration : ℚ := 0
deriving DecidableEq

/-- Metadata header rows of `convert_speaker_segments_to_csv` (`now` is the
wall-clock `Export_Date` string, passed explicitly). -/
def metaRows (info : FileInfo) (now : String) : List CsvRow :=
  [ { segment := .s "METADATA", speaker := .s "File",
      startT := .s info.filename, endT := .s "", startSec := .s "",
      endSec := .s "", durationSec := .s "", text := .s "" },
    { segment := .s "METADATA", speaker := .s "Language",
      startT := .s info.language, endT := .s "", startSec := .s "",
      endSec := .s "", durationSec := .s "", text := .s "" },
    { segment := .s "METADATA", speaker := .s "Duration",
      startT := .s (fmtOneDec info.duration ++ "s"), endT := .s "",
      startSec := .s "", endSec := .s "", durationSec := .s "",
      text := .s "" },
    { segment := .s "METADATA", speaker := .s "Export_Date",
      startT := .s now, endT := .s "", startSec := .s "", endSec := .s "",
      durationSec := .s "", text := .s "" },
    { segment := .s "---", speaker := .s "---", startT := .s "---",
      endT := .s "---", startSec := .s "---", endSec := .s "---",
      durationSec := .s "---", text := .s "---" } ]

/-- `convert_speaker_segments_to_csv(speaker_segments, file_info)`: `None`
on empty input; one row per segment (empty texts included), 1-based
numbering, `MM:SS` strings, raw seconds, duration rounded to 2 decimals;
metadata block prepended when `file_info` is given. -/
def convert_speaker_segments_to_csv (l : List Seg) (fi : Option FileInfo)
    (now : String) : Option (List CsvRow) :=
  if l.isEmpty then none else
    let sorted := sortQ Seg.start_time l
    let rows : List CsvRow := sorted.enum.map (fun p =>
      let s := p.2
      let dur := s.durationOpt.getD (s.end_time - s.start_time)
      { segment := .i (p.1 + 1), speaker := .s s.speaker,
        startT := .s (fmtMS s.start_time), endT := .s (fmtMS s.end_time),
        startSec := .q s.start_time, endSec := .q s.end_time,
        durationSec := .q (pyRound2 dur),
        text := .s (stripStr s.text) })
    match fi with
    | none => some rows
    | some info => some (metaRows info now ++ rows)

/-- Metadata header rows of `convert_search_results_to_csv`. -/
def metaRowsS (info : FileInfo) (term now : String) : List SCsvRow :=
  [ { segment := .s "METADATA", speaker := .s "Search_Term",
      startT := .s term, endT := .s "", startSec := .s "", endSec := .s "",
      durationSec := .s "", isMatchC := .s "", matchGroup := .s "",
      text := .s "" },
    { segment := .s "METADATA", speaker := .s "File",
      startT := .s info.filename, endT := .s "", startSec := .s "",
      endSec := .s "", durationSec := .s "", isMatchC := .s "",
      matchGroup := .s "", text := .s "" },
    { segment := .s "METADATA", speaker := .s "Language",
      startT := .s info.language, endT := .s "", startSec := .s "",
      endSec := .s "", durationSec := .s "", isMatchC := .s "",
      matchGroup := .s "", text := .s "" },
    { segment := .s "METADATA", speaker := .s "Duration",
      startT := .s (fmtOneDec info.duration ++ "s"), endT := .s "",
      startSec := .s "", endSec := .s "", durationSec := .s "",
      isMatchC := .s "", matchGroup := .s "", text := .s "" },
    { segment := .s "METADATA", speaker := .s "Export_Date",
      startT := .s now, endT := .s "", startSec := .s "", endSec := .s "",
      durationSec := .s "", isMatchC := .s "", matchGroup := .s "",
      text := .s "" },
    { segment := .s "---", speaker := .s "---", startT := .s "---",
      endT := .s "---", startSec := .s "---", endSec := .s "---",
      durationSec := .s "---", isMatchC := .s "---", matchGroup := .s "---",
      text := .s "---" } ]

/-- `convert_search_results_to_csv(context_segments, file_info,
search_term)`: as the plain CSV exporter, plus `Is_Match` (`YES`/`CONTEXT`)
and 1-based `Match_Group` columns. -/
def convert_search_results_to_csv (l : List TSeg) (fi : Option FileInfo)
    (term now : String) : Option (List SCsvRow) :=
  if l.isEmpty then none else
    let sorted := sortQ (fun x : TSeg => x.start_time) l
    let rows : List SCsvRow := sorted.enum.map (fun p =>
      let s := p.2
      let dur := s.durationOpt.getD (s.end_time - s.start_time)
      { segment := .i (p.1 + 1), speaker := .s s.speaker,
        startT := .s (fmtMS s.start_time), endT := .s (fmtMS s.end_time),
        startSec := .q s.start_time, endSec := .q s.end_time,
        durationSec := .q (pyRound2 dur),
        isMatchC := .s (if s.is_match then "YES" else "CONTEXT"),
        matchGroup := .i ((s.context_group.getD 0 : ℕ) + 1),
        text := .s (stripStr s.text) })
    match fi with
    | none => some rows
    | some info => some (metaRowsS info term now ++ rows)

/-! ## Stage sync planner (`upload_av_files.py`) -/

/-- `file_path.split('/')[-1]`: the base filename of a stage path. -/
def basenameOf (p : String) : String := (p.splitOn "/").getLastD ""

/-- `get_stage_files(conn, stage_name)`: build the set of base filenames
from the stage listing; any listing error is caught, a warning is printed
and the empty set is returned.  The remote interaction is modelled as an
`Except` value (the listing result or the raised error). -/
def get_stage_files (listing : Except String (List String)) : List String :=
  match listing with
  | .ok rows => (rows.map basenameOf).dedup
  | .error _ => []

/-- The upload plan of `upload_av_files`: split local file names into
`files_to_upload` (name not in the stage set) and `already_uploaded`. -/
def planUploads (localNames stage : List String) : List String × List String :=
  (localNames.filter (fun n => decide (n ∉ stage)),
   localNames.filter (fun n => decide (n ∈ stage)))

/-! ## Auxiliary notions used by the statements -/

/-- Sorted ascending by a rational key. -/
def SortedQ (key : α → ℚ) (l : List α) : Prop :=
  l.Pairwise (fun a b => key a ≤ key b)

/-- Index `i` lies in the context window of match `m`:
`max(0, m - c) ≤ i < min(len, m + c + 1)` (natural subtraction realises the
`max`). -/
def inWindow (len c m i : ℕ) : Bool :=
  decide (m - c ≤ i) && decide (i < min len (m + c + 1))

/-- The first match of `ms` whose window covers index `i` (the group the
extractor attributes `i` to). -/
def firstCover (len c : ℕ) (ms : List ℕ) (i : ℕ) : Option ℕ :=
  ms.find? (fun m => inWindow len c m i)

/-- A string with no leading whitespace character. -/
def noLead (l : List Char) : Bool :=
  match l with
  | [] => true
  | c :: _ => !isWS c

/-- A non-empty string with neither leading nor trailing whitespace
(fixed by `strip`). -/
def GoodText (s : String) : Prop :=
  noLead s.data = true ∧ noLead s.data.reverse = true ∧ s.data ≠ []

/-- Shorthand for a segment literal. -/
def mkSeg (sp tx : String) (st en : ℚ) : Seg :=
  { speaker := sp, text := tx, start_time := st, end_time := en }

/-- Shorthand for a tagged segment literal. -/
def mkTSeg (sp tx : String) (st en : ℚ) (m : Bool) (g : Option ℕ) : TSeg :=
  { speaker := sp, text := tx, start_time := st, end_time := en,
    is_match := m, context_group := g }

/-- The IEEE-754 double nearest to `15.2`, as an exact rational
(`8556839292003942 * 2 ^ (-49)`). -/
def dbl152 : ℚ := mkRat 8556839292003942 562949953421312

/-! ## Lemmas on the stable sort -/

theorem mem_insQ (key : α → ℚ) (x a : α) :
    ∀ l, a ∈ insQ key x l ↔ a = x ∨ a ∈ l := by
  intro l
  induction l with
  | nil => simp [insQ]
  | cons y ys ih =>
    simp only [insQ]
    split
    · simp only [List.mem_cons, ih]
      tauto
    · simp only [List.mem_cons]

theorem mem_sortQ (key : α → ℚ) (l : List α) (a : α) :
    a ∈ sortQ key l ↔ a ∈ l := by
  suffices h : ∀ (l acc : List α),
      a ∈ List.foldl (fun acc x => insQ key x acc) acc l ↔ a ∈ acc ∨ a ∈ l by
    simpa [sortQ] using h l []
  intro l
  induction l with
  | nil => simp
  | cons x xs ih =>
    intro acc
    simp only [List.foldl_cons, ih, mem_insQ, List.mem_cons]
    tauto

theorem sortedQ_insQ (key : α → ℚ) (x : α) :
    ∀ {l : List α}, SortedQ key l → SortedQ key (insQ key x l) := by
  intro l
  induction l with
  | nil => intro _; simp [insQ, SortedQ]
  | cons y ys ih =>
    intro h
    rw [SortedQ, List.pairwise_cons] at h
    simp only [insQ]
    split
    · rename_i hle
      rw [SortedQ, List.pairwise_cons]
      refine ⟨?_, ih h.2⟩
      intro b hb
      rcases (mem_insQ key x b ys).mp hb with rfl | hb
      · exact hle
      · exact h.1 b hb
    · rename_i hle
      rw [SortedQ, List.pairwise_cons]
      refine ⟨?_, List.pairwise_cons.mpr h⟩
      intro b hb
      rcases List.mem_cons.mp hb with rfl | hb
      · exact le_of_not_le hle
      · exact le_trans (le_of_not_le hle) (h.1 b hb)

theorem sortedQ_sortQ (key : α → ℚ) (l : List α) : SortedQ key (sortQ key l) := by
  suffices h : ∀ (l acc : List α), SortedQ key acc →
      SortedQ key (List.foldl (fun acc x => insQ key x acc) acc l) by
    exact h l [] (by simp [SortedQ])
  intro l
  induction l with
  | nil => intro acc h; simpa using h
  | cons x xs ih =>
    intro acc h
    simpa using ih (insQ key x acc) (sortedQ_insQ key x h)

theorem insQ_of_all_le (key : α → ℚ) (x : α) :
    ∀ {l : List α}, (∀ a ∈ l, key a ≤ key x) → insQ key x l = l ++ [x] := by
  intro l
  induction l with
  | nil => intro _; simp [insQ]
  | cons y ys ih =>
    intro h
    simp only [insQ, h y (List.mem_cons_self y ys), if_pos, List.cons_append]
    rw [ih (fun a ha => h a (List.mem_cons_of_mem y ha))]

theorem sortQ_eq_self (key : α → ℚ) {l : List α} (h : SortedQ key l) :
    sortQ key l = l := by
  suffices hgen : ∀ (l acc : List α), SortedQ key (acc ++ l) →
      List.foldl (fun acc x => insQ key x acc) acc l = acc ++ l by
    simpa using hgen l [] (by simpa using h)
  intro l
  induction l with
  | nil => intro acc _; simp
  | cons x xs ih =>
    intro acc hacc
    rw [SortedQ, List.pairwise_append] at hacc
    have hle : ∀ a ∈ acc, key a ≤ key x :=
      fun a ha => hacc.2.2 a ha x (List.mem_cons_self x xs)
    simp only [List.foldl_cons]
    rw [insQ_of_all_le key x hle, ih (acc ++ [x])]
    · simp
    · rw [List.append_assoc]
      simp only [List.singleton_append]
      rw [SortedQ, List.pairwise_append]
      exact hacc

theorem length_sortQ (key : α → ℚ) (l : List α) :
    (sortQ key l).length = l.length := by
  suffices h : ∀ (l acc : List α),
      (List.foldl (fun acc x => insQ key x acc) acc l).length
        = acc.length + l.length by
    simpa using h l []
  intro l
  induction l with
  | nil => simp
  | cons x xs ih =>
    intro acc
    have hins : ∀ (m : List α), (insQ key x m).length = m.length + 1 := by
      intro m
      induction m with
      | nil => simp [insQ]
      | cons y ys ihm =>
        simp only [insQ]
        split <;> simp [ihm]
    simp only [List.foldl_cons, ih, hins, List.length_cons]
    omega

/-! ## Lemmas on the substring test -/

theorem hasLead_iff (p : List Char) :
    ∀ s, hasLead p s = true ↔ ∃ v, s = p ++ v := by
  induction p with
  | nil => intro s; simp [hasLead]
  | cons c cs ih =>
    intro s
    cases s with
    | nil => simp [hasLead]
    | cons d ds =>
      simp only [hasLead, Bool.and_eq_true, beq_iff_eq, ih, List.cons_append]
      constructor
      · rintro ⟨rfl, v, rfl⟩
        exact ⟨v, rfl⟩
      · rintro ⟨v, hv⟩
        injection hv with h1 h2
        exact ⟨h1.symm, v, h2⟩

theorem hasSub_iff (p : List Char) :
    ∀ s, hasSub p s = true ↔ ∃ u v, s = u ++ p ++ v := by
  intro s
  induction s with
  | nil =>
    simp only [hasSub, hasLead_iff]
    constructor
    · rintro ⟨v, hv⟩
      exact ⟨[], v, by simpa using hv⟩
    · rintro ⟨u, v, huv⟩
      rw [List.append_assoc] at huv
      rcases List.append_eq_nil.mp huv.symm with ⟨rfl, h2⟩
      rcases List.append_eq_nil.mp h2 with ⟨rfl, rfl⟩
      exact ⟨[], rfl⟩
  | cons d ds ih =>
    simp only [hasSub, Bool.or_eq_true, hasLead_iff, ih]
    constructor
    · rintro (⟨v, hv⟩ | ⟨u, v, huv⟩)
      · exact ⟨[], v, by simpa using hv⟩
      · exact ⟨d :: u, v, by simp [huv]⟩
    · rintro ⟨u, v, huv⟩
      cases u with
      | nil => exact Or.inl ⟨v, by simpa using huv⟩
      | cons e u' =>
        right
        injection huv with h1 h2
        exact ⟨u', v, h2⟩

theorem containsStr_iff (hay pat : String) :
    containsStr hay pat = true ↔ ∃ u v, hay.data = u ++ pat.data ++ v := by
  rw [containsStr, hasSub_iff]

/-! ## Lemmas on strip -/

theorem dropWhile_eq_self_of_noLead {l : List Char} (h : noLead l = true) :
    l.dropWhile isWS = l := by
  cases l with
  | nil => simp
  | cons c cs =>
    simp only [noLead, Bool.not_eq_true'] at h
    simp [List.dropWhile_cons, h]

theorem noLead_dropWhile (l : List Char) : noLead (l.dropWhile isWS) = true := by
  induction l with
  | nil => simp [noLead]
  | cons c cs ih =>
    rw [List.dropWhile_cons]
    split
    · exact ih
    · rename_i h
      simp only [noLead, Bool.not_eq_true']
      exact Bool.of_not_eq_true h

theorem noLead_reverse_stripL (l : List Char) :
    noLead (stripL l).reverse = true := by
  have : (stripL l).reverse = (l.dropWhile isWS).reverse.dropWhile isWS := by
    simp [stripL]
  rw [this]
  exact noLead_dropWhile _

theorem noLead_stripL (l : List Char) : noLead (stripL l) = true := by
  obtain ⟨t, ht⟩ := List.dropWhile_suffix (l := (l.dropWhile isWS).reverse) isWS
  have h1 := congrArg List.reverse ht
  rw [List.reverse_append, List.reverse_reverse] at h1
  have hd : l.dropWhile isWS = stripL l ++ t.reverse := by
    simp only [stripL]
    exact h1.symm
  cases hs : stripL l with
  | nil => simp [noLead]
  | cons c cs =>
    have h2 := noLead_dropWhile l
    rw [hd, hs] at h2
    simpa [noLead] using h2

theorem stripL_eq_self {l : List Char} (h1 : noLead l = true)
    (h2 : noLead l.reverse = true) : stripL l = l := by
  simp only [stripL, dropWhile_eq_self_of_noLead h1]
  rw [dropWhile_eq_self_of_noLead h2, List.reverse_reverse]

theorem data_stripStr (s : String) : (stripStr s).data = stripL s.data := rfl

theorem goodText_stripStr {s : String} (h : stripStr s ≠ "") :
    GoodText (stripStr s) := by
  refine ⟨noLead_stripL _, noLead_reverse_stripL _, ?_⟩
  intro hn
  exact h (String.ext (by simpa [data_stripStr] using hn))

theorem stripStr_eq_self {s : String} (h : GoodText s) : stripStr s = s :=
  String.ext (by rw [data_stripStr, stripL_eq_self h.1 h.2.1])

theorem noLead_append {u v : List Char} (h : noLead u = true) (hu : u ≠ []) :
    noLead (u ++ v) = true := by
  cases u with
  | nil => exact absurd rfl hu
  | cons c cs => simpa [noLead] using h

theorem goodText_append {a b : String} (ha : GoodText a) (hb : GoodText b) :
    GoodText (a ++ " " ++ b) := by
  have hdata : (a ++ " " ++ b).data = a.data ++ (" ".data ++ b.data) := by
    simp [String.data_append]
  refine ⟨?_, ?_, ?_⟩
  · rw [hdata]
    exact noLead_append ha.1 ha.2.2
  · rw [hdata, List.reverse_append]
    refine noLead_append ?_ ?_
    · rw [List.reverse_append]
      exact noLead_append hb.2.1 (by simpa using hb.2.2)
    · simp
  · rw [hdata]
    simp [ha.2.2]

/-! ## Lemmas on the grouping loop -/

instance : IsTrans Seg (fun a b => a.start_time ≤ b.start_time) :=
  ⟨fun _ _ _ => le_trans⟩

theorem mergeCond_congr (cur : Seg) {s s' : Seg} (hsp : s.speaker = s'.speaker)
    (hst : s.start_time = s'.start_time) :
    mergeCond cur s = mergeCond cur s' := by
  simp [mergeCond, hsp, hst]

theorem groupLoop_head : ∀ (l : List Seg) (cur : Seg), ∃ t e,
    (groupLoop cur l).head? = some { cur with text := t, end_time := e } := by
  intro l
  induction l with
  | nil =>
    intro cur
    exact ⟨cur.text, cur.end_time, rfl⟩
  | cons s rest ih =>
    intro cur
    rw [groupLoop]
    split
    · obtain ⟨t, e, ht⟩ :=
        ih { cur with text := cur.text ++ " " ++ stripStr s.text,
                      end_time := s.end_time }
      exact ⟨t, e, ht⟩
    · exact ⟨cur.text, cur.end_time, rfl⟩

theorem groupLoop_ne_nil (cur : Seg) (l : List Seg) : groupLoop cur l ≠ [] := by
  obtain ⟨t, e, ht⟩ := groupLoop_head l cur
  intro hn
  rw [hn] at ht
  exact Option.noConfusion ht

theorem groupLoop_chain : ∀ (l : List Seg) (cur : Seg),
    List.Chain' (fun a b => mergeCond a b = false) (groupLoop cur l) := by
  intro l
  induction l with
  | nil => intro cur; simp [groupLoop]
  | cons s rest ih =>
    intro cur
    rw [groupLoop]
    split
    · exact ih _
    · rename_i hc
      rw [List.chain'_cons']
      refine ⟨?_, ih (startGroup s)⟩
      intro y hy
      obtain ⟨t, e, ht⟩ := groupLoop_head rest (startGroup s)
      rw [ht] at hy
      rcases Option.mem_some_iff.mp hy with rfl
      exact (mergeCond_congr cur rfl rfl).trans (Bool.of_not_eq_true hc)

theorem groupLoop_good : ∀ (l : List Seg) (cur : Seg), GoodText cur.text →
    cur.durationOpt = none → (∀ s ∈ l, stripStr s.text ≠ "") →
    ∀ g ∈ groupLoop cur l, GoodText g.text ∧ g.durationOpt = none := by
  intro l
  induction l with
  | nil =>
    intro cur h1 h2 _ g hg
    rcases List.mem_singleton.mp hg with rfl
    exact ⟨h1, h2⟩
  | cons s rest ih =>
    intro cur h1 h2 hl g hg
    rw [groupLoop] at hg
    have hs : stripStr s.text ≠ "" := hl s (List.mem_cons_self s rest)
    have hrest : ∀ x ∈ rest, stripStr x.text ≠ "" :=
      fun x hx => hl x (List.mem_cons_of_mem s hx)
    by_cases hc : mergeCond cur s = true
    · rw [if_pos hc] at hg
      exact ih { cur with text := cur.text ++ " " ++ stripStr s.text,
                          end_time := s.end_time }
        (goodText_append h1 (goodText_stripStr hs)) h2 hrest g hg
    · rw [if_neg hc] at hg
      rcases List.mem_cons.mp hg with rfl | hg
      · exact ⟨h1, h2⟩
      · exact ih (startGroup s) (goodText_stripStr hs) rfl hrest g hg

theorem groupLoop_sorted : ∀ (l : List Seg) (cur : Seg),
    List.Chain' (fun a b => a.start_time ≤ b.start_time) (cur :: l) →
    List.Chain' (fun a b => a.start_time ≤ b.start_time) (groupLoop cur l) := by
  intro l
  induction l with
  | nil => intro cur _; simp [groupLoop]
  | cons s rest ih =>
    intro cur h
    rw [List.chain'_cons] at h
    rw [groupLoop]
    split
    · apply ih
      rw [List.chain'_cons'] at h ⊢
      refine ⟨?_, h.2.2⟩
      intro y hy
      exact le_trans h.1 (h.2.1 y hy)
    · rw [List.chain'_cons']
      constructor
      · intro y hy
        obtain ⟨t, e, ht⟩ := groupLoop_head rest (startGroup s)
        rw [ht] at hy
        rcases Option.mem_some_iff.mp hy with rfl
        exact h.1
      · apply ih
        rw [List.chain'_cons'] at h ⊢
        exact ⟨h.2.1, h.2.2⟩

theorem groupSegs_chain (l : List Seg) :
    List.Chain' (fun a b => mergeCond a b = false) (groupSegs l) := by
  cases l with
  | nil => simp [groupSegs]
  | cons s rest => exact groupLoop_chain rest (startGroup s)

theorem groupSegs_good (l : List Seg) (h : ∀ s ∈ l, stripStr s.text ≠ "") :
    ∀ g ∈ groupSegs l, GoodText g.text ∧ g.durationOpt = none := by
  cases l with
  | nil => intro g hg; simp [groupSegs] at hg
  | cons s rest =>
    exact groupLoop_good rest (startGroup s)
      (goodText_stripStr (h s (List.mem_cons_self s rest))) rfl
      (fun x hx => h x (List.mem_cons_of_mem s hx))

theorem groupSegs_sorted {l : List Seg} (h : SortedQ Seg.start_time l) :
    SortedQ Seg.start_time (groupSegs l) := by
  cases l with
  | nil => simp [groupSegs, SortedQ]
  | cons s rest =>
    have hch : List.Chain'
        (fun a b : Seg => a.start_time ≤ b.start_time) (startGroup s :: rest) := by
      have h2 := List.Pairwise.chain' h
      rw [List.chain'_cons'] at h2 ⊢
      exact ⟨h2.1, h2.2⟩
    have h3 := groupLoop_sorted rest (startGroup s) hch
    rw [SortedQ]
    exact List.chain'_iff_pairwise.mp h3

theorem startGroup_eq_self {g : Seg} (h1 : GoodText g.text)
    (h2 : g.durationOpt = none) : startGroup g = g := by
  cases g with
  | mk sp tx st en du =>
    simp only [startGroup]
    rw [stripStr_eq_self h1]
    simp only at h2
    rw [h2]

theorem groupLoop_eq_of_chain : ∀ (rest : List Seg) (g : Seg),
    List.Chain' (fun a b => mergeCond a b = false) (g :: rest) →
    (∀ x ∈ rest, GoodText x.text ∧ x.durationOpt = none) →
    groupLoop g rest = g :: rest := by
  intro rest
  induction rest with
  | nil => intro g _ _; rfl
  | cons s rest' ih =>
    intro g hch hx
    rw [List.chain'_cons] at hch
    rw [groupLoop, if_neg (by simp [hch.1])]
    have hs := hx s (List.mem_cons_self s rest')
    rw [startGroup_eq_self hs.1 hs.2]
    rw [ih s hch.2 (fun x h => hx x (List.mem_cons_of_mem s h))]

theorem groupSegs_eq_self {l : List Seg}
    (hch : List.Chain' (fun a b => mergeCond a b = false) l)
    (hx : ∀ g ∈ l, GoodText g.text ∧ g.durationOpt = none) :
    groupSegs l = l := by
  cases l with
  | nil => rfl
  | cons g rest =>
    rw [groupSegs]
    have hg := hx g (List.mem_cons_self g rest)
    rw [startGroup_eq_self hg.1 hg.2]
    exact groupLoop_eq_of_chain rest g hch
      (fun x h => hx x (List.mem_cons_of_mem g h))

/-! ## Lemmas on the context-window loop -/

theorem map_fst_pair (m : ℕ) (l : List ℕ) :
    (l.map (fun i => (i, m))).map Prod.fst = l := by
  induction l with
  | nil => rfl
  | cons x xs ih => simp [ih]

theorem ctxLoop_snd_mem (len c : ℕ) : ∀ (ms added : List ℕ) (p : ℕ × ℕ),
    p ∈ ctxLoop len c ms added → p.2 ∈ ms := by
  intro ms
  induction ms with
  | nil => intro added p hp; simp [ctxLoop] at hp
  | cons m ms' ih =>
    intro added p hp
    simp only [ctxLoop] at hp
    rcases List.mem_append.mp hp with hp | hp
    · obtain ⟨i, _, rfl⟩ := List.mem_map.mp hp
      exact List.mem_cons_self m ms'
    · exact List.mem_cons_of_mem m (ih _ p hp)

theorem ctxLoop_fst_nodup (len c : ℕ) : ∀ (ms added : List ℕ),
    ((ctxLoop len c ms added).map Prod.fst).Nodup ∧
      ∀ p ∈ ctxLoop len c ms added, p.1 ∉ added := by
  intro ms
  induction ms with
  | nil => intro added; simp [ctxLoop]
  | cons m ms' ih =>
    intro added
    have hstep : ctxLoop len c (m :: ms') added =
        ((List.range' (m - c) (min len (m + c + 1) - (m - c))).filter
          (fun i => decide (i ∉ added))).map (fun i => (i, m)) ++
        ctxLoop len c ms' (added ++
          (List.range' (m - c) (min len (m + c + 1) - (m - c))).filter
            (fun i => decide (i ∉ added))) := rfl
    rw [hstep]
    set news := (List.range' (m - c) (min len (m + c + 1) - (m - c))).filter
      (fun i => decide (i ∉ added))
    obtain ⟨ihn, iha⟩ := ih (added ++ news)
    constructor
    · rw [List.map_append, map_fst_pair, List.nodup_append]
      refine ⟨List.Nodup.filter _ (List.nodup_range' _ _), ihn, ?_⟩
      intro a ha hb
      obtain ⟨p, hp, rfl⟩ := List.mem_map.mp hb
      exact (iha p hp) (List.mem_append.mpr (Or.inr ha))
    · intro p hp
      rcases List.mem_append.mp hp with hp | hp
      · obtain ⟨i, hi, rfl⟩ := List.mem_map.mp hp
        have h2 := (List.mem_filter.mp hi).2
        simpa using h2
      · intro hmem
        exact (iha p hp) (List.mem_append.mpr (Or.inl hmem))

theorem ctxLoop_cover (len c : ℕ) : ∀ (ms added : List ℕ) (i g : ℕ),
    i ∉ added → ms.find? (fun m => inWindow len c m i) = some g →
    (i, g) ∈ ctxLoop len c ms added := by
  intro ms
  induction ms with
  | nil => intro added i g _ hf; simp at hf
  | cons m ms' ih =>
    intro added i g hi hf
    by_cases hw : inWindow len c m i = true
    · rw [List.find?_cons] at hf
      simp only [hw] at hf
      injection hf with hf
      subst hf
      simp only [ctxLoop]
      apply List.mem_append.mpr
      left
      apply List.mem_map.mpr
      refine ⟨i, ?_, rfl⟩
      apply List.mem_filter.mpr
      refine ⟨?_, by simpa using hi⟩
      rw [List.mem_range'_1]
      rw [inWindow, Bool.and_eq_true, decide_eq_true_eq, decide_eq_true_eq] at hw
      omega
    · rw [List.find?_cons] at hf
      simp only [Bool.of_not_eq_true hw] at hf
      simp only [ctxLoop]
      apply List.mem_append.mpr
      right
      apply ih _ i g ?_ hf
      intro hmem
      rcases List.mem_append.mp hmem with h | h
      · exact hi h
      · have h2 := (List.mem_filter.mp h).1
        rw [List.mem_range'_1] at h2
        apply hw
        rw [inWindow, Bool.and_eq_true, decide_eq_true_eq, decide_eq_true_eq]
        omega

theorem ctxLoop_group_count (len c : ℕ) : ∀ (ms added : List ℕ) (m : ℕ),
    ms.Nodup →
    ((ctxLoop len c ms added).filter (fun p => decide (p.2 = m))).length
      ≤ 2 * c + 1 := by
  intro ms
  induction ms with
  | nil => intro added m _; simp [ctxLoop]
  | cons m0 ms' ih =>
    intro added m hnd
    rw [List.nodup_cons] at hnd
    have hstep : ctxLoop len c (m0 :: ms') added =
        ((List.range' (m0 - c) (min len (m0 + c + 1) - (m0 - c))).filter
          (fun i => decide (i ∉ added))).map (fun i => (i, m0)) ++
        ctxLoop len c ms' (added ++
          (List.range' (m0 - c) (min len (m0 + c + 1) - (m0 - c))).filter
            (fun i => decide (i ∉ added))) := rfl
    rw [hstep, List.filter_append, List.length_append]
    set news := (List.range' (m0 - c) (min len (m0 + c + 1) - (m0 - c))).filter
      (fun i => decide (i ∉ added))
    by_cases hm : m = m0
    · subst hm
      have h2 : ((ctxLoop len c ms' (added ++ news)).filter
          (fun p => decide (p.2 = m))) = [] := by
        rw [List.filter_eq_nil_iff]
        intro p hp
        have hs := ctxLoop_snd_mem len c ms' (added ++ news) p hp
        simp only [decide_eq_true_eq]
        intro he
        rw [he] at hs
        exact hnd.1 hs
      rw [h2]
      have h1 : ((news.map (fun i => (i, m))).filter
          (fun p => decide (p.2 = m))).length ≤ news.length := by
        calc ((news.map (fun i => (i, m))).filter
            (fun p => decide (p.2 = m))).length
            ≤ (news.map (fun i => (i, m))).length := List.length_filter_le _ _
          _ = news.length := List.length_map _ _
      have h3 : news.length ≤ min len (m + c + 1) - (m - c) := by
        calc news.length
            ≤ (List.range' (m - c) (min len (m + c + 1) - (m - c))).length :=
              List.length_filter_le _ _
          _ = min len (m + c + 1) - (m - c) := List.length_range' _ _ _
      simp only [List.length_nil]
      omega
    · have h1 : (news.map (fun i => (i, m0))).filter
          (fun p => decide (p.2 = m)) = [] := by
        rw [List.filter_eq_nil_iff]
        intro p hp
        obtain ⟨i, _, rfl⟩ := List.mem_map.mp hp
        simp only [decide_eq_true_eq]
        intro he
        exact hm he.symm
      rw [h1]
      simpa using ih (added ++ news) m hnd.2

/-! ## Claim theorems -/

/-- Claim C8: for a non-empty term, an index is in the match set iff the
lower-cased term occurs as a substring of that segment's lower-cased text;
an empty search term or an empty segment list yields the empty result via
the explicit guard of `find_matching_segments_with_context`. -/
theorem C8_match_locator (l : List Seg) (t : String) (c : ℕ) :
    (t ≠ "" → ∀ m, m ∈ matchingIdx l t ↔ m < l.length ∧
      ∃ u v, (lowerStr ((l.getD m default).text)).data
        = u ++ (lowerStr t).data ++ v) ∧
    find_matching_segments_with_context [] t c = [] ∧
    find_matching_segments_with_context l "" c = [] := by
  refine ⟨?_, ?_, ?_⟩
  · intro _ m
    simp only [matchingIdx, List.mem_filter, List.mem_range, containsStr_iff]
  · rw [find_matching_segments_with_context]
    simp
  · rw [find_matching_segments_with_context]
    simp [String.isEmpty]

/-- Claim C8 witness: term `"hell"` matches segment text `"Hello"` at
index 0. -/
theorem C8_match_locator_witness :
    0 ∈ matchingIdx [mkSeg "A" "Hello" 0 1] "hell" :=
  ((C8_match_locator [mkSeg "A" "Hello" 0 1] "hell" 0).1 (by decide) 0).mpr
    ⟨by decide, [], "o".data, by decide⟩

/-- Claim C9: when listing the remote stage raises an error,
`get_stage_files` returns the empty set; the upload plan then classifies
every local file as to-upload and none as already present. -/
theorem C9_degraded_listing (e : String) (localNames : List String) :
    get_stage_files (.error e) = [] ∧
    (planUploads localNames (get_stage_files (.error e))).1 = localNames ∧
    (planUploads localNames (get_stage_files (.error e))).2 = [] := by
  refine ⟨rfl, ?_, ?_⟩
  · simp [planUploads, get_stage_files, List.filter_eq_self]
  · simp [planUploads, get_stage_files, List.filter_eq_nil_iff]

/-- Claim C10: each of the four export converters returns `None` exactly
when given an empty (falsy) segment list, and a value otherwise. -/
theorem C10_converters_none_iff_empty (l : List Seg) (lt : List TSeg)
    (fi : Option FileInfo) (term now : String) (inc : Bool) :
    (convert_speaker_segments_to_csv l fi now = none ↔ l = []) ∧
    (convert_search_results_to_csv lt fi term now = none ↔ lt = []) ∧
    (convert_speaker_segments_to_srt l inc = none ↔ l = []) ∧
    (convert_search_results_to_srt lt inc = none ↔ lt = []) := by
  refine ⟨?_, ?_, ?_, ?_⟩
  · cases l with
    | nil => simp [convert_speaker_segments_to_csv]
    | cons s rest => cases fi <;> simp [convert_speaker_segments_to_csv]
  · cases lt with
    | nil => simp [convert_search_results_to_csv]
    | cons s rest => cases fi <;> simp [convert_search_results_to_csv]
  · cases l with
    | nil => simp [convert_speaker_segments_to_srt]
    | cons s rest => simp [convert_speaker_segments_to_srt]
  · cases lt with
    | nil => simp [convert_search_results_to_srt]
    | cons s rest => simp [convert_search_results_to_srt]

/-- Claim C2 (evaluation at the failing input): with one empty-text segment
between two non-empty ones, `convert_speaker_segments_to_srt` numbers the
two emitted entries 1 and 3 — the entry number is the segment's position in
the sorted list, so skipped empty segments leave gaps instead of a
contiguous 1, 2, ... sequence. -/
theorem C2_srt_numbering_gap :
    convert_speaker_segments_to_srt
      [mkSeg "Unknown" "a" 0 1, mkSeg "Unknown" "" 1 2, mkSeg "Unknown" "b" 2 3]
      true
    = some ("1\n00:00:00,000 --> 00:00:01,000\na\n\n" ++
            "3\n00:00:02,000 --> 00:00:03,000\nb\n") := by
  decide

/-! ## Bridges between the reducible arithmetic and the standard operations -/

theorem qsub_eq_sub (a b : ℚ) : qsub a b = a - b := by
  rw [qsub, Rat.mkRat_eq_divInt]
  have hz : ∀ q : ℚ, ((q.den : ℤ)) ≠ 0 := fun q => Int.natCast_ne_zero.mpr q.den_nz
  rw [show ((a.den * b.den : ℕ) : ℤ) = (a.den : ℤ) * (b.den : ℤ) by push_cast; ring]
  rw [← Rat.divInt_sub_divInt _ _ (hz a) (hz b)]
  rw [Rat.num_divInt_den, Rat.num_divInt_den]

theorem qmul1000_eq (a : ℚ) : qmul1000 a = a * 1000 := by
  rw [qmul1000, Rat.mkRat_eq_divInt]
  conv_rhs => rw [← Rat.num_divInt_den a]
  have h1000 : (1000 : ℚ) = Rat.divInt (1000 : ℤ) (1 : ℤ) := by
    rw [Rat.divInt_one]
    norm_num
  rw [h1000, Rat.divInt_mul_divInt']
  norm_num

theorem truncQ_eq_floor {q : ℚ} (h : 0 ≤ q) : truncQ q = ⌊q⌋ := by
  rw [truncQ, Rat.floor_def]
  exact Int.tdiv_eq_ediv (Rat.num_nonneg.mpr h) (Int.natCast_nonneg _)

theorem mkRat_eq_div' (n : ℤ) (d : ℕ) : mkRat n d = (n : ℚ) / (d : ℚ) := by
  rw [Rat.mkRat_eq_divInt, Rat.divInt_eq_div]
  norm_num

theorem mergeCond_iff (cur s : Seg) :
    mergeCond cur s = true ↔
      (s.speaker = cur.speaker ∧ cur.end_time ≠ 0 ∧
        |s.start_time - cur.end_time| < 2) := by
  rw [mergeCond]
  simp [qsub_eq_sub, and_assoc]

theorem mergeCondT_iff (cur s : TSeg) :
    mergeCondT cur s = true ↔
      (s.speaker = cur.speaker ∧ cur.end_time ≠ 0 ∧
        |s.start_time - cur.end_time| < 2 ∧ s.is_match = cur.is_match ∧
        s.context_group = cur.context_group) := by
  rw [mergeCondT]
  simp [qsub_eq_sub, and_assoc]

/-- Claim C3 counterexample: same speaker and gap under 2 seconds, yet no
merge happens — first pair: the earlier segment's `end_time` is 0 (falsy in
the truthiness test); second pair: the next segment starts 9 seconds before
the earlier end (gap −9 < 2, but `abs(start - end) = 9` fails the test).
The normalizer leaves both pairs as two segments where the claim requires
one merged segment. -/
theorem C3_merge_criterion_cex :
    normalizeSegs [mkSeg "A" "x" 0 0, mkSeg "A" "y" (mkRat 1 2) 1]
      = [mkSeg "A" "x" 0 0, mkSeg "A" "y" (mkRat 1 2) 1] ∧
    (normalizeSegs [mkSeg "A" "x" 0 0, mkSeg "A" "y" (mkRat 1 2) 1]).length
      = 2 ∧
    normalizeSegs [mkSeg "A" "x" 0 10, mkSeg "A" "y" 1 12]
      = [mkSeg "A" "x" 0 10, mkSeg "A" "y" 1 12] ∧
    (normalizeSegs [mkSeg "A" "x" 0 10, mkSeg "A" "y" 1 12]).length = 2 := by
  decide

/-- Claim C3 (amended): two chronologically adjacent segments merge iff
same speaker AND the earlier `end_time` is non-zero (Python truthiness)
AND `abs(next start − previous end) < 2` (and, in search mode, identical
`is_match`/`context_group`); the merged segment's text is the concatenation
of the two stripped texts with a single space and its `end_time` is the
later segment's `end_time`. -/
theorem C3_merge_criterion_amended (a b : Seg) (x y : TSeg)
    (hab : a.start_time ≤ b.start_time) :
    (groupSegs (sortQ Seg.start_time [a, b]) =
        [{ speaker := a.speaker,
           text := stripStr a.text ++ " " ++ stripStr b.text,
           start_time := a.start_time, end_time := b.end_time,
           durationOpt := none }]
      ↔ (b.speaker = a.speaker ∧ a.end_time ≠ 0 ∧
          |b.start_time - a.end_time| < 2)) ∧
    (¬(b.speaker = a.speaker ∧ a.end_time ≠ 0 ∧
        |b.start_time - a.end_time| < 2) →
      groupSegs (sortQ Seg.start_time [a, b])
        = [startGroup a, startGroup b]) ∧
    (groupTSegs [x, y] =
        [{ speaker := x.speaker,
           text := stripStr x.text ++ " " ++ stripStr y.text,
           start_time := x.start_time, end_time := y.end_time,
           durationOpt := none, is_match := x.is_match,
           context_group := x.context_group }]
      ↔ (y.speaker = x.speaker ∧ x.end_time ≠ 0 ∧
          |y.start_time - x.end_time| < 2 ∧ y.is_match = x.is_match ∧
          y.context_group = x.context_group)) := by
  have hsort : sortQ Seg.start_time [a, b] = [a, b] := by
    simp [sortQ, insQ, hab]
  have hkey : groupSegs (sortQ Seg.start_time [a, b]) =
      if mergeCond (startGroup a) b then
        [{ speaker := a.speaker,
           text := stripStr a.text ++ " " ++ stripStr b.text,
           start_time := a.start_time, end_time := b.end_time,
           durationOpt := none }]
      else [startGroup a, startGroup b] := by
    rw [hsort]
    show groupLoop (startGroup a) [b] = _
    rw [groupLoop]
    split
    · rfl
    · rfl
  have hbridge : mergeCond (startGroup a) b = true ↔
      (b.speaker = a.speaker ∧ a.end_time ≠ 0 ∧
        |b.start_time - a.end_time| < 2) := by
    rw [mergeCond_iff]
    simp [startGroup]
  have hkeyT : groupTSegs [x, y] =
      if mergeCondT (startGroupT x) y then
        [{ speaker := x.speaker,
           text := stripStr x.text ++ " " ++ stripStr y.text,
           start_time := x.start_time, end_time := y.end_time,
           durationOpt := none, is_match := x.is_match,
           context_group := x.context_group }]
      else [startGroupT x, startGroupT y] := by
    show groupLoopT (startGroupT x) [y] = _
    rw [groupLoopT]
    split
    · rfl
    · rfl
  have hbridgeT : mergeCondT (startGroupT x) y = true ↔
      (y.speaker = x.speaker ∧ x.end_time ≠ 0 ∧
        |y.start_time - x.end_time| < 2 ∧ y.is_match = x.is_match ∧
        y.context_group = x.context_group) := by
    rw [mergeCondT_iff]
    simp [startGroupT]
  refine ⟨?_, ?_, ?_⟩
  · rw [hkey]
    constructor
    · intro hEq
      by_contra hc
      rw [if_neg (fun h => hc (hbridge.mp h))] at hEq
      exact absurd (congrArg List.length hEq) (by simp)
    · intro hc
      rw [if_pos (hbridge.mpr hc)]
  · intro hc
    rw [hkey, if_neg (fun h => hc (hbridge.mp h))]
  · rw [hkeyT]
    constructor
    · intro hEq
      by_contra hc
      rw [if_neg (fun h => hc (hbridgeT.mp h))] at hEq
      exact absurd (congrArg List.length hEq) (by simp)
    · intro hc
      rw [if_pos (hbridgeT.mpr hc)]

/-- Claim C3 witness: a normal merge — same speaker, previous end 2,
next start 2.5 (gap 0.5 s) — yields one combined segment. -/
theorem C3_merge_criterion_amended_witness :
    groupSegs (sortQ Seg.start_time
        [mkSeg "A" "hello" 0 2, mkSeg "A" "world" (mkRat 5 2) 4]) =
      [{ speaker := "A", text := stripStr "hello" ++ " " ++ stripStr "world",
         start_time := 0, end_time := 4, durationOpt := none }] :=
  ((C3_merge_criterion_amended (mkSeg "A" "hello" 0 2)
      (mkSeg "A" "world" (mkRat 5 2) 4) default default (by decide)).1).mpr
    ⟨rfl, by norm_num [mkSeg],
     by simp only [mkSeg, mkRat_eq_div']; rw [abs_lt]; constructor <;> norm_num⟩

theorem intercalate_single (x : String) : String.intercalate "\n" [x] = x := rfl

/-- Claim C4 counterexample: with speaker inclusion disabled, a matched
segment's entry text is NOT the bare text — the literal `[MATCH]: ` prefix
is still attached. -/
theorem C4_srt_prefix_cex :
    convert_search_results_to_srt [mkTSeg "Bob" "hi" 0 1 true (some 0)] false
      = some "1\n00:00:00,000 --> 00:00:01,000\n[MATCH]: hi\n" ∧
    convert_search_results_to_srt [mkTSeg "Bob" "hi" 0 1 true (some 0)] false
      ≠ some "1\n00:00:00,000 --> 00:00:01,000\nhi\n" := by
  decide

/-- Claim C4 (amended): in `convert_search_results_to_srt` the speaker
label prefixes the text only when inclusion is enabled and the speaker is
not "Unknown", with ` [MATCH]` appended to the label on matched segments;
when inclusion is disabled or the speaker is "Unknown", a non-match entry
is the bare text but a matched entry still carries the `[MATCH]: `
prefix. -/
theorem C4_srt_prefix_amended (s : TSeg) (inc : Bool)
    (h : stripStr s.text ≠ "") :
    convert_search_results_to_srt [s] inc
      = some ("1\n" ++ srtTimestamp s.start_time ++ " --> " ++
          srtTimestamp s.end_time ++ "\n" ++
          (if inc = true ∧ s.speaker ≠ "Unknown" then
             (if s.is_match = true then
                s.speaker ++ " [MATCH]: " ++ stripStr s.text
              else s.speaker ++ ": " ++ stripStr s.text)
           else (if s.is_match = true then "[MATCH]: " ++ stripStr s.text
                 else stripStr s.text)) ++ "\n") := by
  have hker : convert_search_results_to_srt [s] inc = some
      ("1\n" ++ srtTimestamp s.start_time ++ " --> " ++
        srtTimestamp s.end_time ++ "\n" ++
        subtitleTextSearch inc s (stripStr s.text) ++ "\n") := by
    simp only [convert_search_results_to_srt, sortQ, List.foldl_cons,
      List.foldl_nil, insQ, List.isEmpty_cons, Bool.false_eq_true, if_false]
    rw [List.filter_cons_of_pos (by simpa using h), List.filter_nil]
    rw [show ([s] : List TSeg).enum = [(0, s)] from rfl]
    rw [List.map_cons, List.map_nil, intercalate_single]
    show some (natStr (0 + 1) ++ "\n" ++ srtTimestamp s.start_time ++
      " --> " ++ srtTimestamp s.end_time ++ "\n" ++
      subtitleTextSearch inc s (stripStr s.text) ++ "\n") = _
    rw [show natStr (0 + 1) ++ "\n" = ("1\n" : String) from rfl]
  rw [hker]
  have hsub : subtitleTextSearch inc s (stripStr s.text) =
      (if inc = true ∧ s.speaker ≠ "Unknown" then
         (if s.is_match = true then
            s.speaker ++ " [MATCH]: " ++ stripStr s.text
          else s.speaker ++ ": " ++ stripStr s.text)
       else (if s.is_match = true then "[MATCH]: " ++ stripStr s.text
             else stripStr s.text)) := by
    cases inc <;> by_cases h2 : s.speaker = "Unknown" <;>
      cases hm : s.is_match <;>
      simp [subtitleTextSearch, h2, hm, String.append_assoc]
  rw [hsub]

/-- Claim C4 witness: speakers enabled, known speaker, matched segment —
the label carries the ` [MATCH]` tag. -/
theorem C4_srt_prefix_amended_witness :
    convert_search_results_to_srt [mkTSeg "Bob" "hi" 0 1 true (some 0)] true
      = some ("1\n" ++ srtTimestamp 0 ++ " --> " ++ srtTimestamp 1 ++ "\n" ++
          ("Bob" ++ " [MATCH]: " ++ stripStr "hi") ++ "\n") := by
  have h := C4_srt_prefix_amended (mkTSeg "Bob" "hi" 0 1 true (some 0)) true
    (by decide)
  simpa [mkTSeg] using h

/-- Claim C5 counterexample: an empty-text segment merged at a group edge
leaves a trailing space, which a second normalization pass strips — so
normalizing an already-normalized list changes it. -/
theorem C5_normalizer_idem_cex :
    normalizeSegs [mkSeg "A" "a" 0 1, mkSeg "A" "" 1 2]
      = [mkSeg "A" "a " 0 2] ∧
    normalizeSegs (normalizeSegs [mkSeg "A" "a" 0 1, mkSeg "A" "" 1 2])
      = [mkSeg "A" "a" 0 2] ∧
    normalizeSegs (normalizeSegs [mkSeg "A" "a" 0 1, mkSeg "A" "" 1 2])
      ≠ normalizeSegs [mkSeg "A" "a" 0 1, mkSeg "A" "" 1 2] := by
  decide

/-- Claim C5 (amended): the normalizer is idempotent on lists whose
segments all have non-empty stripped text (in general a second pass only
re-strips each merged text; segmentation, speakers and times never
change). -/
theorem C5_normalizer_idem_amended (l : List Seg)
    (h : ∀ s ∈ l, stripStr s.text ≠ "") :
    normalizeSegs (normalizeSegs l) = normalizeSegs l := by
  have hmem : ∀ s ∈ sortQ Seg.start_time l, stripStr s.text ≠ "" :=
    fun s hs => h s ((mem_sortQ _ _ _).mp hs)
  have hgood := groupSegs_good (sortQ Seg.start_time l) hmem
  simp only [normalizeSegs]
  rw [sortQ_eq_self Seg.start_time
    (groupSegs_sorted (sortedQ_sortQ Seg.start_time l))]
  exact groupSegs_eq_self (groupSegs_chain _) hgood

/-- Claim C5 witness: a two-speaker list with non-empty texts is a fixed
point of a second normalization. -/
theorem C5_normalizer_idem_amended_witness :
    normalizeSegs (normalizeSegs [mkSeg "A" "a" 0 1, mkSeg "B" "b" 3 4])
      = normalizeSegs [mkSeg "A" "a" 0 1, mkSeg "B" "b" 3 4] :=
  C5_normalizer_idem_amended [mkSeg "A" "a" 0 1, mkSeg "B" "b" 3 4]
    (by decide)

/-- Claim C7 counterexample: the IEEE-754 double that Python stores for
`15.2` is `8556839292003942/2^49 ≈ 15.1999999999999993`; with the code's
millisecond truncation the rendered timestamp is `00:00:15,199`, not the
claimed `00:00:15,200`. -/
theorem C7_ms_truncation_cex :
    srtTimestamp dbl152 = "00:00:15,199" ∧
    srtTimestamp dbl152 ≠ "00:00:15,200" := by
  decide

/-- Claim C7 (amended): the millisecond field is
`floor((t - floor t) * 1000)` (truncation, not rounding) of the time value
the program actually holds; the exact rational `15.2` would render as
`00:00:15,200`, but the IEEE-754 double stored for `15.2` renders as
`00:00:15,199`. -/
theorem C7_ms_truncation_amended :
    (∀ t : ℚ, 0 ≤ t → msOf t = ⌊(t - (⌊t⌋ : ℚ)) * 1000⌋) ∧
    srtTimestamp (mkRat 76 5) = "00:00:15,200" ∧
    srtTimestamp dbl152 = "00:00:15,199" := by
  refine ⟨?_, by decide, by decide⟩
  intro t ht
  rw [msOf, truncQ_eq_floor ht, qsub_eq_sub, qmul1000_eq]
  apply truncQ_eq_floor
  have h1 : 0 ≤ t - (⌊t⌋ : ℚ) := by
    have h2 := Int.floor_le t
    linarith
  have h3 : (0:ℚ) ≤ 1000 := by norm_num
  exact mul_nonneg h1 h3

/-- Claim C7 witness: the millisecond formula at `t = 5/2`. -/
theorem C7_ms_truncation_amended_witness :
    msOf (mkRat 5 2)
      = ⌊((mkRat 5 2 : ℚ) - ((⌊(mkRat 5 2 : ℚ)⌋ : ℤ) : ℚ)) * 1000⌋ :=
  C7_ms_truncation_amended.1 (mkRat 5 2) (by decide)

/-- Claim C1 counterexample: two adjacent segments both match `"hi"`; the
second match (index 1) lies inside the first match's context window, is
added there with `is_match = (1 == 0) = false`, and the dedup set then
prevents its own window from re-tagging it — so a match index's segment
appears tagged `is_match = false`. -/
theorem C1_context_match_tagging_cex :
    matchingIdx (sortQ Seg.start_time
        [mkSeg "A" "hi a" 0 1, mkSeg "A" "hi b" 1 2]) "hi" = [0, 1] ∧
    find_matching_segments_with_context
        [mkSeg "A" "hi a" 0 1, mkSeg "A" "hi b" 1 2] "hi" 10
      = [mkTSeg "A" "hi a" 0 1 true (some 0),
         mkTSeg "A" "hi b" 1 2 false (some 0)] := by
  decide

/-- Claim C1 (amended): for a non-empty term, every match index `m` has its
segment present in the output, attributed to the first match of the list
whose window covers `m`, and tagged `is_match = true` iff that first
covering match is `m` itself; a match first covered by an earlier match's
window is tagged `is_match = false`. -/
theorem C1_context_match_tagging_amended (l : List Seg) (t : String) (c : ℕ)
    (ht : t ≠ "") (m : ℕ)
    (hm : m ∈ matchingIdx (sortQ Seg.start_time l) t) :
    ∃ g, firstCover (sortQ Seg.start_time l).length c
        (matchingIdx (sortQ Seg.start_time l) t) m = some g ∧
      tagSeg ((sortQ Seg.start_time l).getD m default) (decide (m = g)) g
        ∈ find_matching_segments_with_context l t c := by
  have hml : m < (sortQ Seg.start_time l).length := by
    have h1 := hm
    rw [matchingIdx, List.mem_filter] at h1
    exact List.mem_range.mp h1.1
  have hww : inWindow (sortQ Seg.start_time l).length c m m = true := by
    rw [inWindow, Bool.and_eq_true, decide_eq_true_eq, decide_eq_true_eq]
    omega
  have hfs : ((matchingIdx (sortQ Seg.start_time l) t).find?
      (fun m' => inWindow (sortQ Seg.start_time l).length c m' m)).isSome := by
    rw [List.find?_isSome]
    exact ⟨m, hm, hww⟩
  obtain ⟨g, hg⟩ := Option.isSome_iff_exists.mp hfs
  refine ⟨g, hg, ?_⟩
  have hpair : (m, g) ∈ ctxPairs (sortQ Seg.start_time l).length c
      (matchingIdx (sortQ Seg.start_time l) t) :=
    ctxLoop_cover _ _ _ [] m g (by simp) hg
  have hmem : tagSeg ((sortQ Seg.start_time l).getD m default)
      (decide (m = g)) g ∈
      (ctxPairs (sortQ Seg.start_time l).length c
        (matchingIdx (sortQ Seg.start_time l) t)).map
        (fun p => tagSeg ((sortQ Seg.start_time l).getD p.1 default)
          (decide (p.1 = p.2)) p.2) :=
    List.mem_map.mpr ⟨(m, g), hpair, rfl⟩
  have hl : l ≠ [] := by
    intro hnil
    subst hnil
    simp [matchingIdx, sortQ] at hm
  rw [find_matching_segments_with_context]
  rw [if_neg (by simp [List.isEmpty_iff, String.isEmpty_iff, hl, ht])]
  rw [if_neg (by simp only [List.isEmpty_iff]; exact List.ne_nil_of_mem hm)]
  exact (mem_sortQ _ _ _).mpr hmem

/-- Claim C1 witness: single matching segment, its own window covers it
first, tagged `is_match = true`. -/
theorem C1_context_match_tagging_amended_witness :
    ∃ g, firstCover (sortQ Seg.start_time [mkSeg "A" "hi" 0 1]).length 10
        (matchingIdx (sortQ Seg.start_time [mkSeg "A" "hi" 0 1]) "hi") 0
        = some g ∧
      tagSeg ((sortQ Seg.start_time [mkSeg "A" "hi" 0 1]).getD 0 default)
          (decide (0 = g)) g
        ∈ find_matching_segments_with_context [mkSeg "A" "hi" 0 1] "hi" 10 :=
  C1_context_match_tagging_amended [mkSeg "A" "hi" 0 1] "hi" 10 (by decide) 0
    (by decide)

/-- Claim C6: the extractor's output is sorted ascending by `start_time`;
no source index is added twice; if there are no matches the result is
empty; and each match contributes at most `2*context_size + 1` segments. -/
theorem C6_context_window_structure (l : List Seg) (t : String) (c : ℕ) :
    List.Pairwise (fun a b : TSeg => a.start_time ≤ b.start_time)
      (find_matching_segments_with_context l t c) ∧
    ((ctxPairs (sortQ Seg.start_time l).length c
        (matchingIdx (sortQ Seg.start_time l) t)).map Prod.fst).Nodup ∧
    (matchingIdx (sortQ Seg.start_time l) t = [] →
      find_matching_segments_with_context l t c = []) ∧
    (∀ m ∈ matchingIdx (sortQ Seg.start_time l) t,
      ((ctxPairs (sortQ Seg.start_time l).length c
          (matchingIdx (sortQ Seg.start_time l) t)).filter
        (fun p => decide (p.2 = m))).length ≤ 2 * c + 1) := by
  refine ⟨?_, ?_, ?_, ?_⟩
  · simp only [find_matching_segments_with_context]
    split
    · simp
    · split
      · simp
      · exact sortedQ_sortQ _ _
  · exact (ctxLoop_fst_nodup _ _ _ _).1
  · intro hms
    simp only [find_matching_segments_with_context]
    split
    · rfl
    · rw [hms]
      simp
  · intro m _
    exact ctxLoop_group_count _ _ _ _ m
      (List.Nodup.filter _ (List.nodup_range _))

/-- Claim C6 witness: with a single matching segment and window size 0, the
no-match implication and the per-match bound hold at the concrete input. -/
theorem C6_context_window_structure_witness :
    ((ctxPairs (sortQ Seg.start_time [mkSeg "A" "hi" 0 1]).length 0
        (matchingIdx (sortQ Seg.start_time [mkSeg "A" "hi" 0 1]) "hi")).filter
      (fun p => decide (p.2 = 0))).length ≤ 2 * 0 + 1 :=
  (C6_context_window_structure [mkSeg "A" "hi" 0 1] "hi" 0).2.2.2 0 (by decide)
